import Mathlib

/- Verification of the result-aggregation and caching pipeline of the
   grep_app_mcp server: hit aggregation (hits.ts), the persistent query
   cache (cache.ts) with its TTL and size-capped cleanup, the cache key
   derivations (cache.ts generateCacheKey and the per-page getCacheKey in
   grep-app-client.ts), and cached-result batch retrieval
   (batch-retrieval.ts).

   Modelling conventions: JavaScript objects with non-integer-like string
   keys (repository names, file paths, hex digests, textual line numbers
   as used here) enumerate their properties in insertion order, so they
   are embedded as association lists; property assignment updates the
   first binding in place and appends a missing key at the end.  The
   cache directory is a listing-ordered association list of file name to
   file record (parsed content, mtime, byte size); `fs.readdir` order is
   the list order.  Time is an explicit parameter (`Date.now()` values
   in milliseconds, modelled as Int so that `now - timestamp` follows JS
   number subtraction).  MD5 is implemented in full so that digest
   claims are decided, not assumed. -/

namespace GrepApp

/-- JS object property read: the value at the first binding of key `k`. -/
def lookupFirst {β : Type} : List (String × β) → String → Option β
  | [], _ => none
  | (k', v) :: rest, k => if k' = k then some v else lookupFirst rest k

/-- JS object property write `o[k] = v`: update the first binding of `k`
    in place, or append a new binding at the end. -/
def jsInsert {β : Type} : List (String × β) → String → β → List (String × β)
  | [], k, v => [(k, v)]
  | (k', v') :: rest, k, v =>
      if k' = k then (k', v) :: rest else (k', v') :: jsInsert rest k v

/-- `Object.assign(target, source)`: copy every source binding into the
    target, left to right. -/
def assignList {β : Type} (target source : List (String × β)) : List (String × β) :=
  source.foldl (fun t kv => jsInsert t kv.1 kv.2) target

/-- Update the value at the first binding of `k` (used for in-place
    mutation of a nested object that is known to exist). -/
def updateFirst {β : Type} : List (String × β) → String → (β → β) → List (String × β)
  | [], _, _ => []
  | (k', v') :: rest, k, f =>
      if k' = k then (k', f v') :: rest else (k', v') :: updateFirst rest k f

/-- A JS object has no duplicate property names. -/
def NodupKeys {β : Type} (l : List (String × β)) : Prop := (l.map (·.1)).Nodup

/-- hits.ts line maps: textual line number to matched line content. -/
abbrev LineMap := List (String × String)

/-- hits.ts per-repository data: file path to line map. -/
abbrev RepoData := List (String × LineMap)

/-- hits.ts `IHits`: the aggregate, a `hits` object mapping repository
    to path to line number to content. -/
structure IHits where
  hits : List (String × RepoData)
deriving DecidableEq, Repr

/-- hits.ts `createHits`. -/
def createHits : IHits := ⟨[]⟩

/-- Well-formedness of an aggregate as a JS object: no duplicate keys at
    any of the three levels. -/
def HitsWf (h : IHits) : Prop :=
  NodupKeys h.hits ∧
  ∀ rp ∈ h.hits, NodupKeys rp.2 ∧ ∀ pl ∈ rp.2, NodupKeys pl.2

/-- hits.ts `mergeHits` inner loop: merge one repository's source path
    data into the target repository object. -/
def mergeRepoData (target source : RepoData) : RepoData :=
  source.foldl
    (fun rd pl =>
      let rd1 := if (lookupFirst rd pl.1).isSome then rd else rd ++ [(pl.1, [])]
      updateFirst rd1 pl.1 (fun lines => assignList lines pl.2))
    target

/-- hits.ts `mergeHits`: deep union of `source` into `target`; innermost
    line entries from the source overwrite the target on collision. -/
def mergeHits (target source : IHits) : IHits :=
  ⟨source.hits.foldl
    (fun tgt rp =>
      let tgt1 := if (lookupFirst tgt rp.1).isSome then tgt else tgt ++ [(rp.1, [])]
      updateFirst tgt1 rp.1 (fun rd => mergeRepoData rd rp.2))
    target.hits⟩

/-- batch-retrieval.ts `NumberedHit`. -/
structure NumberedHit where
  number : Nat
  repo : String
  path : String
deriving DecidableEq, Repr

/-- The (repository, path) pairs of an aggregate, in the nested `for-in`
    enumeration order of `flattenHits`. -/
def repoPathPairs (h : IHits) : List (String × String) :=
  (h.hits.map (fun rp => rp.2.map (fun pl => (rp.1, pl.1)))).flatten

/-- The running counter of `flattenHits` (`let i = 1; ... i++`). -/
def numberFrom : Nat → List (String × String) → List NumberedHit
  | _, [] => []
  | i, (r, p) :: rest => ⟨i, r, p⟩ :: numberFrom (i + 1) rest

/-- batch-retrieval.ts `flattenHits`: each unique (repository, path) is
    one result, numbered consecutively from 1 in enumeration order. -/
def flattenHits (h : IHits) : List NumberedHit :=
  numberFrom 1 (repoPathPairs h)

/-! ## MD5 (RFC 1321), over byte lists, for the cache key digests -/

/-- Rotate a 32-bit value left by `s` bits (for `x < 2^32`, `s ≤ 32`). -/
def rotl32 (x s : Nat) : Nat := (x * 2 ^ s) % 2 ^ 32 + x / 2 ^ (32 - s)

/-- The 64 MD5 sine-derived constants. -/
def md5K : List Nat :=
  [0xd76aa478, 0xe8c7b756, 0x242070db, 0xc1bdceee,
   0xf57c0faf, 0x4787c62a, 0xa8304613, 0xfd469501,
   0x698098d8, 0x8b44f7af, 0xffff5bb1, 0x895cd7be,
   0x6b901122, 0xfd987193, 0xa679438e, 0x49b40821,
   0xf61e2562, 0xc040b340, 0x265e5a51, 0xe9b6c7aa,
   0xd62f105d, 0x02441453, 0xd8a1e681, 0xe7d3fbc8,
   0x21e1cde6, 0xc33707d6, 0xf4d50d87, 0x455a14ed,
   0xa9e3e905, 0xfcefa3f8, 0x676f02d9, 0x8d2a4c8a,
   0xfffa3942, 0x8771f681, 0x6d9d6122, 0xfde5380c,
   0xa4beea44, 0x4bdecfa9, 0xf6bb4b60, 0xbebfbc70,
   0x289b7ec6, 0xeaa127fa, 0xd4ef3085, 0x04881d05,
   0xd9d4d039, 0xe6db99e5, 0x1fa27cf8, 0xc4ac5665,
   0xf4292244, 0x432aff97, 0xab9423a7, 0xfc93a039,
   0x655b59c3, 0x8f0ccc92, 0xffeff47d, 0x85845dd1,
   0x6fa87e4f, 0xfe2ce6e0, 0xa3014314, 0x4e0811a1,
   0xf7537e82, 0xbd3af235, 0x2ad7d2bb, 0xeb86d391]

/-- The per-round left-rotation amounts. -/
def md5S : List Nat :=
  [7, 12, 17, 22, 7, 12, 17, 22, 7, 12, 17, 22, 7, 12, 17, 22,
   5, 9, 14, 20, 5, 9, 14, 20, 5, 9, 14, 20, 5, 9, 14, 20,
   4, 11, 16, 23, 4, 11, 16, 23, 4, 11, 16, 23, 4, 11, 16, 23,
   6, 10, 15, 21, 6, 10, 15, 21, 6, 10, 15, 21, 6, 10, 15, 21]

/-- The round mixing function (F, G, H, I by round quarter). -/
def md5F (i b c d : Nat) : Nat :=
  if i < 16 then Nat.lor (Nat.land b c) (Nat.land (2 ^ 32 - 1 - b) d)
  else if i < 32 then Nat.lor (Nat.land d b) (Nat.land (2 ^ 32 - 1 - d) c)
  else if i < 48 then Nat.xor b (Nat.xor c d)
  else Nat.xor c (Nat.lor b (2 ^ 32 - 1 - d))

/-- The message word index used in round `i`. -/
def md5G (i : Nat) : Nat :=
  if i < 16 then i
  else if i < 32 then (5 * i + 1) % 16
  else if i < 48 then (3 * i + 5) % 16
  else (7 * i) % 16

/-- One of the 64 rounds on state (A, B, C, D). -/
def md5Round (M : List Nat) (st : Nat × Nat × Nat × Nat) (i : Nat) :
    Nat × Nat × Nat × Nat :=
  let f := (md5F i st.2.1 st.2.2.1 st.2.2.2 + st.1 + md5K.getD i 0 +
            M.getD (md5G i) 0) % 2 ^ 32
  (st.2.2.2, (st.2.1 + rotl32 f (md5S.getD i 0)) % 2 ^ 32, st.2.1, st.2.2.1)

/-- Process one 16-word chunk and add the result into the state. -/
def md5Chunk (st : Nat × Nat × Nat × Nat) (M : List Nat) : Nat × Nat × Nat × Nat :=
  let r := (List.range 64).foldl (md5Round M) st
  ((st.1 + r.1) % 2 ^ 32, (st.2.1 + r.2.1) % 2 ^ 32,
   (st.2.2.1 + r.2.2.1) % 2 ^ 32, (st.2.2.2 + r.2.2.2) % 2 ^ 32)

/-- `j` little-endian bytes of `n`. -/
def leBytes (n : Nat) : Nat → List Nat
  | 0 => []
  | j + 1 => n % 256 :: leBytes (n / 256) j

/-- MD5 padding: 0x80, zeros to 56 mod 64, then the 64-bit bit length. -/
def md5Pad (msg : List Nat) : List Nat :=
  msg ++ [0x80] ++ List.replicate ((119 - msg.length % 64) % 64) 0 ++
    leBytes (8 * msg.length % 2 ^ 64) 8

/-- Split a byte list into 64-byte chunks (structurally, via an
    accumulator holding the current chunk in reverse). -/
def chunksAux : List Nat → List Nat → List (List Nat)
  | acc, [] => if acc = [] then [] else [acc.reverse]
  | acc, b :: rest =>
      if acc.length = 63 then (acc.reverse ++ [b]) :: chunksAux [] rest
      else chunksAux (b :: acc) rest

/-- Split a padded byte list into 64-byte chunks. -/
def toChunks (l : List Nat) : List (List Nat) := chunksAux [] l

/-- Group bytes into little-endian 32-bit words. -/
def toWords : List Nat → List Nat
  | b0 :: b1 :: b2 :: b3 :: rest =>
      (b0 + 256 * b1 + 65536 * b2 + 16777216 * b3) :: toWords rest
  | _ => []

/-- The MD5 initial state. -/
def md5Init : Nat × Nat × Nat × Nat := (0x67452301, 0xefcdab89, 0x98badcfe, 0x10325476)

/-- Lowercase hex digit. -/
def hexDigit (n : Nat) : Char := if n < 10 then Char.ofNat (48 + n) else Char.ofNat (87 + n)

/-- Two lowercase hex digits of a byte. -/
def byteHex (b : Nat) : List Char := [hexDigit (b / 16), hexDigit (b % 16)]

/-- The 16 MD5 digest bytes of a byte list. -/
def md5Bytes (msg : List Nat) : List Nat :=
  let r := (toChunks (md5Pad msg)).foldl (fun st ch => md5Chunk st (toWords ch)) md5Init
  leBytes r.1 4 ++ leBytes r.2.1 4 ++ leBytes r.2.2.1 4 ++ leBytes r.2.2.2 4

/-- UTF-8 bytes of a code point. -/
def charUtf8 (n : Nat) : List Nat :=
  if n < 0x80 then [n]
  else if n < 0x800 then [0xc0 + n / 64, 0x80 + n % 64]
  else if n < 0x10000 then [0xe0 + n / 4096, 0x80 + n / 64 % 64, 0x80 + n % 64]
  else [0xf0 + n / 262144, 0x80 + n / 4096 % 64, 0x80 + n / 64 % 64, 0x80 + n % 64]

/-- UTF-8 bytes of a string (Node `Buffer.from(s)` / hash input bytes). -/
def strBytes (s : String) : List Nat := (s.data.map (fun c => charUtf8 c.toNat)).flatten

/-- `crypto.createHash('md5').update(s).digest('hex')`. -/
def md5Hex (s : String) : String :=
  String.mk ((md5Bytes (strBytes s)).foldr (fun b acc => byteHex b ++ acc) [])

/-! ## String helpers (kernel-computable models of the JS string ops) -/

/-- JS `s.endsWith(t)`. -/
def jsEndsWith (s t : String) : Bool :=
  decide (t.data.length ≤ s.data.length) &&
    s.data.drop (s.data.length - t.data.length) == t.data

/-- JS `s.startsWith(t)`. -/
def jsStartsWith (s t : String) : Bool := s.data.take t.data.length == t.data

/-- Drop the first `n` characters of a string. -/
def jsDrop (s : String) (n : Nat) : String := String.mk (s.data.drop n)

/-- The characters before the first `.` of a string. -/
def takeUntilDot : List Char → List Char
  | [] => []
  | c :: rest => if c = '.' then [] else c :: takeUntilDot rest

/-- JS `s.split('.')[0]`. -/
def jsSplitDotHead (s : String) : String := String.mk (takeUntilDot s.data)

/-- Split on a separator character, JS `s.split(c)` (never empty). -/
def splitOnCharAux (c : Char) : List Char → List Char → List String
  | acc, [] => [String.mk acc.reverse]
  | acc, x :: rest =>
      if x = c then String.mk acc.reverse :: splitOnCharAux c [] rest
      else splitOnCharAux c (x :: acc) rest

/-- JS `s.split('/')`. -/
def splitSlash (s : String) : List String := splitOnCharAux '/' [] s.data

/-- Concatenate strings with `,` between them (JSON field joining). -/
def joinComma : List String → String
  | [] => ""
  | [s] => s
  | s :: rest => s ++ "," ++ joinComma rest

/-! ## Cache keys (cache.ts `generateCacheKey`, grep-app-client.ts `getCacheKey`) -/

/-- types.ts `SearchParams`: the query plus optional search flags
    (absent optional fields are `undefined` and are omitted by
    `JSON.stringify`). -/
structure SearchParams where
  query : String
  caseSensitive : Option Bool := none
  useRegex : Option Bool := none
  wholeWords : Option Bool := none
  repoFilter : Option String := none
  pathFilter : Option String := none
  langFilter : Option String := none
deriving DecidableEq, Repr

/-- cache.ts `CacheKey`: a query plus an optional page number. -/
structure CacheKey where
  query : String
  page : Option Nat := none
deriving DecidableEq, Repr

/-- Lowercase hex digits, for `\uXXXX` escapes. -/
def jsonEscapeChar (c : Char) : List Char :=
  if c = '"' then ['\\', '"']
  else if c = '\\' then ['\\', '\\']
  else if c.toNat ≥ 32 then [c]
  else if c.toNat = 8 then ['\\', 'b']
  else if c.toNat = 9 then ['\\', 't']
  else if c.toNat = 10 then ['\\', 'n']
  else if c.toNat = 12 then ['\\', 'f']
  else if c.toNat = 13 then ['\\', 'r']
  else ['\\', 'u', '0', '0', hexDigit (c.toNat / 16), hexDigit (c.toNat % 16)]

/-- `JSON.stringify` of a string value. -/
def jsonString (s : String) : String :=
  "\"" ++ String.mk (s.data.map jsonEscapeChar).flatten ++ "\""

/-- `JSON.stringify` of an object given already-serialized field values
    (insertion order, no spaces). -/
def jsonObj (fields : List (String × String)) : String :=
  "\x7b" ++ joinComma (fields.map (fun f => jsonString f.1 ++ ":" ++ f.2)) ++ "\x7d"

/-- `JSON.stringify` of a boolean. -/
def jsonBool (b : Bool) : String := if b then "true" else "false"

/-- cache.ts `generateCacheKey`: the MD5 hex digest of
    `JSON.stringify(\x7b query: keyObj.query \x7d)` — only the query field
    of the key object reaches the digest input. -/
def generateCacheKey (keyObj : CacheKey) : String :=
  md5Hex (jsonObj [("query", jsonString keyObj.query)])

/-- grep-app-client.ts `getCacheKey`: the MD5 hex digest of
    `JSON.stringify(\x7b page, ...args \x7d)` — the page number and every
    present search flag reach the digest input (object-literal property
    order: `page` first, then the args fields in declaration order). -/
def getCacheKey (page : Nat) (args : SearchParams) : String :=
  md5Hex (jsonObj
    ([("page", toString page), ("query", jsonString args.query)] ++
     (match args.caseSensitive with | some b => [("caseSensitive", jsonBool b)] | none => []) ++
     (match args.useRegex with | some b => [("useRegex", jsonBool b)] | none => []) ++
     (match args.wholeWords with | some b => [("wholeWords", jsonBool b)] | none => []) ++
     (match args.repoFilter with | some s => [("repoFilter", jsonString s)] | none => []) ++
     (match args.pathFilter with | some s => [("pathFilter", jsonString s)] | none => []) ++
     (match args.langFilter with | some s => [("langFilter", jsonString s)] | none => [])))

/-! ## The persisted cache (cache.ts) -/

/-- The cached search payload `\x7b nextPage, hits, count \x7d` written by the
    search flow and read back by batch retrieval. -/
structure SearchData where
  nextPage : Option Nat
  hits : IHits
  count : Nat
deriving DecidableEq, Repr

/-- cache.ts `CacheEntry`: payload, creation time, payload byte size and
    the original query string (optional). -/
structure CacheEntry where
  data : SearchData
  timestamp : Int
  size : Nat
  query : Option String
deriving DecidableEq, Repr

/-- One file of the cache directory: its parsed content (`none` when the
    JSON does not parse), its mtime and its byte size as reported by
    `fs.stat`. -/
structure CacheFile where
  entry : Option CacheEntry
  mtime : Int
  size : Nat
deriving DecidableEq, Repr

/-- The cache directory: file name to file, in `fs.readdir` listing
    order. -/
abbrev CacheState := List (String × CacheFile)

/-- cache.ts `CACHE_TTL` (24 hours in milliseconds). -/
def CACHE_TTL : Int := 24 * 60 * 60 * 1000

/-- cache.ts `MAX_CACHE_SIZE` (5 GiB in bytes). -/
def MAX_CACHE_SIZE : Nat := 5 * 1024 * 1024 * 1024

/-- `JSON.stringify` of the search payload. -/
def serializeSearchData (d : SearchData) : String :=
  jsonObj
    [("nextPage", match d.nextPage with | none => "null" | some n => toString n),
     ("hits", jsonObj [("hits",
        jsonObj (d.hits.hits.map (fun rp => (rp.1,
          jsonObj (rp.2.map (fun pl => (pl.1,
            jsonObj (pl.2.map (fun kv => (kv.1, jsonString kv.2))))))))))]),
     ("count", toString d.count)]

/-- `JSON.stringify` of a cache entry (the bytes written to the cache
    file; an `undefined` query field is omitted). -/
def serializeEntry (e : CacheEntry) : String :=
  jsonObj
    ([("data", serializeSearchData e.data),
      ("timestamp", toString e.timestamp),
      ("size", toString e.size)] ++
     (match e.query with | some q => [("query", jsonString q)] | none => []))

/-- `Buffer.from(s).length`: the UTF-8 byte size of a string. -/
def byteSize (s : String) : Nat := (strBytes s).length

/-- cache.ts `getCachedData`: read `key.json`; `null` when missing or
    unparseable; when the entry's age exceeds the TTL, delete the file
    and return `null`; otherwise return the entry.  Every failure path
    is caught, so the call itself never throws. -/
def getCachedData (S : CacheState) (now : Int) (cacheKey : String) :
    Option CacheEntry × CacheState :=
  let name := cacheKey ++ ".json"
  match lookupFirst S name with
  | none => (none, S)
  | some f =>
    match f.entry with
    | none => (none, S)
    | some e =>
      if now - e.timestamp > CACHE_TTL then (none, S.filter (fun nf => nf.1 ≠ name))
      else (some e, S)

/-- Does a directory file match a reverse lookup for `q`?  cache.ts
    `findCacheFiles` keeps `.json` files whose parsed `query` field
    equals the argument exactly (strict `===`, hence case-sensitive, no
    normalization); unreadable files are skipped. -/
def fileMatchesQuery (q : String) (nf : String × CacheFile) : Bool :=
  jsEndsWith nf.1 ".json" &&
    match nf.2.entry with
    | some e => e.query == some q
    | none => false

/-- cache.ts `findCacheFiles`: the matching file names in listing order. -/
def findCacheFiles (S : CacheState) (q : String) : List String :=
  (S.filter (fileMatchesQuery q)).map (·.1)

/-- The `.json` files of the directory, in listing order. -/
def jsonFiles (S : CacheState) : CacheState := S.filter (fun nf => jsEndsWith nf.1 ".json")

/-- The total byte size of a list of files. -/
def sumSizes (l : CacheState) : Nat := (l.map (fun nf => nf.2.size)).sum

/-- The total persisted byte size counted by `cleanupCache`. -/
def sumJsonSizes (S : CacheState) : Nat := sumSizes (jsonFiles S)

/-- Stable insertion of a file into an mtime-ascending list (placed
    before the first file that is not strictly older), modelling the
    stable `Array.prototype.sort` with comparator `a.mtime - b.mtime`. -/
def insertByMtime (f : String × CacheFile) : CacheState → CacheState
  | [] => [f]
  | g :: rest => if g.2.mtime < f.2.mtime then g :: insertByMtime f rest else f :: g :: rest

/-- The stable mtime-ascending sort used by `cleanupCache`. -/
def sortByMtime : CacheState → CacheState
  | [] => []
  | f :: rest => insertByMtime f (sortByMtime rest)

/-- The deletion loop of `cleanupCache`: delete from the front (oldest
    first) while the running total still exceeds the cap; returns the
    deleted file names. -/
def evict : Nat → CacheState → List String
  | _, [] => []
  | total, f :: rest =>
      if total > MAX_CACHE_SIZE then f.1 :: evict (total - f.2.size) rest else []

/-- cache.ts `cleanupCache`: when the total `.json` byte size exceeds
    `MAX_CACHE_SIZE`, delete files oldest-first (by mtime) until the
    total is at or under the cap; otherwise do nothing. -/
def cleanupCache (S : CacheState) : CacheState :=
  let total := sumJsonSizes S
  if total > MAX_CACHE_SIZE then
    let deleted := evict total (sortByMtime (jsonFiles S))
    S.filter (fun nf => !(deleted.contains nf.1))
  else S

/-- The entry built by `cacheData`: stamped with the current time, the
    payload byte size and the original query. -/
def writtenEntry (now : Int) (d : SearchData) (query : Option String) : CacheEntry :=
  ⟨d, now, byteSize (serializeSearchData d), query⟩

/-- The file written by `cacheData`: serialized entry bytes, mtime now. -/
def writtenFile (now : Int) (d : SearchData) (query : Option String) : CacheFile :=
  ⟨some (writtenEntry now d query), now, byteSize (serializeEntry (writtenEntry now d query))⟩

/-- cache.ts `cacheData`: build the entry, write it to `cacheKey.json`
    (overwriting in place or creating at the end of the listing), then
    run a cleanup pass.  Write errors are logged and swallowed. -/
def cacheData (S : CacheState) (now : Int) (cacheKey : String) (d : SearchData)
    (query : Option String) : CacheState :=
  cleanupCache (jsInsert S (cacheKey ++ ".json") (writtenFile now d query))

/-! ## Batch retrieval (batch-retrieval.ts) -/

/-- The owner/repo pair extracted by `parseGitHubRepo`. -/
structure RepoInfo where
  owner : String
  repo : String
deriving DecidableEq, Repr

/-- A character of the `\w.-` class of the repo regex (`\w` is ASCII
    alphanumeric or underscore). -/
def isRepoChar (c : Char) : Bool := c.isAlphanum || c = '_' || c = '.' || c = '-'

/-- batch-retrieval.ts `parseGitHubRepo`: match
    `^(?:https?:\/\/github\.com\/)?([\w.-]+)\/([\w.-]+)(?:\.git)?$`.
    After the optional URL prefix the string must be `owner/name` with
    both segments non-empty over `[\w.-]`; a trailing `.git` is part of
    `[\w.-]`, so the greedy second group keeps it (the optional group
    matches empty). -/
def parseGitHubRepo (s : String) : Option RepoInfo :=
  let body :=
    if jsStartsWith s "https://github.com/" then jsDrop s 19
    else if jsStartsWith s "http://github.com/" then jsDrop s 18
    else s
  match splitSlash body with
  | [o, r] =>
      if o ≠ "" && r ≠ "" && o.data.all isRepoChar && r.data.all isRepoChar then
        some ⟨o, r⟩
      else none
  | _ => none

/-- github-utils.ts `GitHubFileRequest` (ref omitted: never set here). -/
structure GitHubFileRequest where
  owner : String
  repo : String
  path : String
deriving DecidableEq, Repr

/-- github-utils.ts `GitHubFileContent`: one fetched file (or its
    per-file error). -/
structure GitHubFileContent where
  content : String
  path : String
  sha : String
  owner : String
  repo : String
  error : Option String := none
deriving DecidableEq, Repr

/-- JS truthiness of an optional string (`undefined` and `""` are
    falsy). -/
def strTruthy : Option String → Bool
  | some s => s ≠ ""
  | none => false

/-- batch-retrieval.ts `BatchRetrievalParams` with its defaults
    (`page = 1`, `pageSize = 10`). -/
structure BatchParams where
  query : String
  resultNumbers : Option (List Nat) := none
  page : Nat := 1
  pageSize : Nat := 10
deriving DecidableEq, Repr

/-- One element of `BatchRetrievalResult.files`. -/
structure FileResult where
  number : Nat
  repo : String
  path : String
  content : String
  error : Option String := none
deriving DecidableEq, Repr

/-- batch-retrieval.ts `BatchRetrievalResult`. -/
structure BatchResult where
  success : Bool
  files : List FileResult
  error : Option String := none
  page : Option Nat := none
  pageSize : Option Nat := none
  totalPages : Option Nat := none
  totalResults : Option Nat := none
deriving DecidableEq, Repr

/-- The map-back step of `batchRetrieveFiles`: re-parse the hit's repo,
    take the first fetched file whose short repo name and path match
    (the owner is not compared), and build the returned entry.  A falsy
    stored error keeps the content; a missing or errored fetch yields an
    error entry. -/
def mapBackHit (githubResults : List GitHubFileContent) (hit : NumberedHit) : FileResult :=
  match githubResults.find? (fun r =>
      (match parseGitHubRepo hit.repo with | some ri => r.repo == ri.repo | none => false) &&
        r.path == hit.path) with
  | none => ⟨hit.number, hit.repo, hit.path, "", some "File not found in GitHub batch response."⟩
  | some r =>
      if strTruthy r.error then ⟨hit.number, hit.repo, hit.path, "", r.error⟩
      else ⟨hit.number, hit.repo, hit.path, r.content, none⟩

/-- batch-retrieval.ts `getQueryResults`: the hits of the first listed
    cache file matching the query (the cache key is the file name up to
    the first dot), threading the state (an expired entry is deleted by
    `getCachedData`) and collecting the emitted warnings. -/
def getQueryResults (S : CacheState) (now : Int) (q : String) :
    Option IHits × CacheState × List String :=
  match findCacheFiles S q with
  | [] => (none, S, ["No cache files found for query"])
  | latest :: _ =>
    let cacheKey := jsSplitDotHead latest
    let r := getCachedData S now cacheKey
    match r.1 with
    | none => (none, r.2, ["Failed to parse cache entry"])
    | some e => (some e.data.hits, r.2, [])

/-- batch-retrieval.ts `batchRetrieveFiles` (the paginated core
    version), with the GitHub fetcher as an explicit function parameter:
    look up the cached hits for the query, flatten, keep the hits whose
    numbers are in `resultNumbers` (when given and non-empty), slice the
    requested page, fetch, and map the fetched contents back.  Returns
    the result, the cache state and the warnings logged along the way. -/
def batchRetrieveFiles (github : List GitHubFileRequest → List GitHubFileContent)
    (S : CacheState) (now : Int) (p : BatchParams) :
    BatchResult × CacheState × List String :=
  let q := getQueryResults S now p.query
  match q.1 with
  | none =>
      (⟨false, [], some ("No cached results found for query: " ++ p.query),
        none, none, none, none⟩, q.2.1, q.2.2)
  | some cachedHits =>
    let allNumberedHits := flattenHits cachedHits
    let hitsToProcess : List NumberedHit :=
      match p.resultNumbers with
      | some ns => if ns.length > 0 then allNumberedHits.filter (fun h => ns.contains h.number)
                   else allNumberedHits
      | none => allNumberedHits
    if hitsToProcess.isEmpty then
      (⟨false, [], some "No results found for the given query or result numbers.",
        none, none, none, none⟩, q.2.1, q.2.2)
    else
      let totalResults := hitsToProcess.length
      let totalPages := (totalResults + p.pageSize - 1) / p.pageSize
      let startIndex := (p.page - 1) * p.pageSize
      let pageHits := (hitsToProcess.drop startIndex).take p.pageSize
      if pageHits.isEmpty then
        (⟨true, [], none, some p.page, some p.pageSize, some totalPages, some totalResults⟩,
         q.2.1, q.2.2)
      else
        let fileRequests := pageHits.filterMap (fun (h : NumberedHit) =>
          (parseGitHubRepo h.repo).map (fun ri => (⟨ri.owner, ri.repo, h.path⟩ : GitHubFileRequest)))
        let warns := pageHits.filterMap (fun (h : NumberedHit) =>
          if (parseGitHubRepo h.repo).isNone then some ("Invalid GitHub repo format: " ++ h.repo)
          else none)
        if fileRequests.isEmpty then
          (⟨false, [], some "No valid files found for the specified result numbers on this page.",
            some p.page, some p.pageSize, some totalPages, some totalResults⟩,
           q.2.1, q.2.2 ++ warns)
        else
          let githubResults := github fileRequests
          let files := pageHits.map (mapBackHit githubResults)
          (⟨true, files, none, some p.page, some p.pageSize, some totalPages, some totalResults⟩,
           q.2.1, q.2.2 ++ warns)

/-! ## Order-insensitive mapping equality (from the spec's words) -/

/-- Is every binding of `l1` present in `l2` (first-binding lookup) with
    an equivalent value? -/
def alistSubOf {β : Type} (eqv : β → β → Bool) (l1 l2 : List (String × β)) : Bool :=
  l1.all (fun kv => match lookupFirst l2 kv.1 with
    | some v => eqv kv.2 v
    | none => false)

/-- Order-insensitive equivalence of two association lists. -/
def alistEquiv {β : Type} (eqv : β → β → Bool) (l1 l2 : List (String × β)) : Bool :=
  alistSubOf eqv l1 l2 && alistSubOf eqv l2 l1

/-- Modelled from the spec's words, for comparison against the code:
    two stores "holding the same repository → path → line mapping",
    read as the same nested partial mapping at every level, irrespective
    of property enumeration order. -/
def hitsSameMappingSpec (s1 s2 : IHits) : Bool :=
  alistEquiv (alistEquiv (alistEquiv (· == ·))) s1.hits s2.hits

/-- The repository/path skeleton of an aggregate: what `flattenHits`
    actually reads (the two outer key levels, in enumeration order). -/
def hitsSkeleton (h : IHits) : List (String × List String) :=
  h.hits.map (fun rp => (rp.1, rp.2.map (·.1)))

/-- The hits kept by the `resultNumbers` filter of `batchRetrieveFiles`. -/
def requestedHits (H : IHits) (ns : List Nat) : List NumberedHit :=
  (flattenHits H).filter (fun h => ns.contains h.number)

/-- The GitHub file requests built from a page of hits. -/
def requestsOf (l : List NumberedHit) : List GitHubFileRequest :=
  l.filterMap (fun h =>
    (parseGitHubRepo h.repo).map (fun ri => (⟨ri.owner, ri.repo, h.path⟩ : GitHubFileRequest)))

/-! ## Concrete fixtures for witnesses and counterexamples -/

/-- A GitHub fetcher stub: answers every request with a distinct content
    tagged by owner, repo and path. -/
def githubStub : List GitHubFileRequest → List GitHubFileContent :=
  fun reqs => reqs.map (fun r =>
    ⟨"content of " ++ r.owner ++ "/" ++ r.repo ++ "/" ++ r.path, r.path, "sha0",
      r.owner, r.repo, none⟩)

/-- A three-file aggregate over two repositories. -/
def exHits3 : IHits :=
  ⟨[("alice/proj", [("src/a.ts", [("1", "const x = 1")]), ("src/b.ts", [("2", "const y = 2")])]),
    ("bob/proj", [("src/a.ts", [("3", "const z = 3")])])]⟩

/-- The cached payload of a completed search for the three-file
    aggregate. -/
def exAgg3 : SearchData := ⟨none, exHits3, 3⟩

/-- The cache directory after a search for `tower_governor` cached the
    three-file aggregate. -/
def exState3 : CacheState := cacheData [] 1000 "beefbeef" exAgg3 (some "tower_governor")

/-- A single-file aggregate. -/
def exHits1 : IHits := ⟨[("alice/proj", [("only.ts", [("1", "lone line")])])]⟩

/-- The cache directory after a search for `tower_governor` cached the
    single-file aggregate. -/
def exState1 : CacheState := cacheData [] 1000 "cafecafe" ⟨none, exHits1, 1⟩ (some "tower_governor")

/-- A cache directory holding one unparseable 6 GiB `.json` file whose
    mtime lies in the future. -/
def exBigFuture : CacheState := [("big.json", ⟨none, 99999, 6442450944⟩)]

/-- Two unparseable 3 GiB cache files: together they exceed the 5 GiB
    cap. -/
def exOverCap : CacheState :=
  [("a.json", ⟨none, 10, 3221225472⟩), ("b.json", ⟨none, 20, 3221225472⟩)]

/-- An older cached entry for `tower_governor`. -/
def entryOld : CacheEntry := ⟨⟨none, ⟨[("old/repo", [("old.ts", [("1", "old line")])])]⟩, 1⟩,
  1000, 10, some "tower_governor"⟩

/-- A newer cached entry for the same query. -/
def entryNew : CacheEntry := ⟨⟨none, ⟨[("new/repo", [("new.ts", [("2", "new line")])])]⟩, 1⟩,
  2000, 10, some "tower_governor"⟩

/-- A listing where the older matching file comes first: `aaaa.json`
    (timestamp 1000, mtime 1000) before `bbbb.json` (timestamp 2000,
    mtime 2000). -/
def exTwoEntries : CacheState :=
  [("aaaa.json", ⟨some entryOld, 1000, 50⟩), ("bbbb.json", ⟨some entryNew, 2000, 50⟩)]

/-- Two repositories, in one enumeration order... -/
def storeAB : IHits := ⟨[("a/r", [("p.ts", [("1", "l")])]), ("b/r", [("q.ts", [("2", "m")])])]⟩

/-- ...and the same nested mapping in the other enumeration order. -/
def storeBA : IHits := ⟨[("b/r", [("q.ts", [("2", "m")])]), ("a/r", [("p.ts", [("1", "l")])])]⟩

/-- The same skeleton as `storeAB` with different line content. -/
def storeABlines : IHits := ⟨[("a/r", [("p.ts", [("9", "other")])]), ("b/r", [("q.ts", [])])]⟩

/-! ## Association-list lemmas -/

theorem lookupFirst_jsInsert {β : Type} (l : List (String × β)) (k : String) (v : β) :
    lookupFirst (jsInsert l k v) k = some v := by
  induction l with
  | nil => simp [jsInsert, lookupFirst]
  | cons kv rest ih =>
      by_cases h : kv.1 = k
      · obtain ⟨k', v'⟩ := kv
        simp only at h
        simp [jsInsert, lookupFirst, h]
      · obtain ⟨k', v'⟩ := kv
        simp only at h
        simp [jsInsert, lookupFirst, h, ih]

theorem jsInsert_self {β : Type} {l : List (String × β)} {k : String} {v : β}
    (h : lookupFirst l k = some v) : jsInsert l k v = l := by
  induction l with
  | nil => simp [lookupFirst] at h
  | cons kv rest ih =>
      obtain ⟨k', v'⟩ := kv
      by_cases hk : k' = k
      · subst hk
        simp [lookupFirst] at h
        simp [jsInsert, h]
      · simp [lookupFirst, hk] at h
        simp [jsInsert, hk, ih h]

theorem lookupFirst_of_nodup_mem {β : Type} {l : List (String × β)}
    (hn : NodupKeys l) {k : String} {v : β} (hm : (k, v) ∈ l) :
    lookupFirst l k = some v := by
  induction l with
  | nil => simp at hm
  | cons kv rest ih =>
      obtain ⟨k', v'⟩ := kv
      unfold NodupKeys at hn
      simp only [List.map_cons, List.nodup_cons] at hn
      rcases List.mem_cons.mp hm with h | h
      · obtain ⟨h1, h2⟩ := Prod.mk.injEq .. ▸ h
        simp_all [lookupFirst]
      · have hk : k' ≠ k := by
          intro he
          exact hn.1 (he ▸ List.mem_map.mpr ⟨(k, v), h, rfl⟩)
        simp [lookupFirst, hk]
        exact ih hn.2 h

theorem foldl_fixed {α β : Type} (g : α → β → α) (acc : α) (l : List β)
    (h : ∀ x ∈ l, g acc x = acc) : l.foldl g acc = acc := by
  induction l with
  | nil => rfl
  | cons x rest ih =>
      simp only [List.foldl_cons, h x (by simp)]
      exact ih (fun y hy => h y (by simp [hy]))

theorem assignList_self {β : Type} {l : List (String × β)} (hn : NodupKeys l) :
    assignList l l = l := by
  unfold assignList
  exact foldl_fixed _ _ _ (fun kv hkv =>
    jsInsert_self (lookupFirst_of_nodup_mem hn (by simpa using hkv)))

theorem updateFirst_self {β : Type} {l : List (String × β)} {k : String} {f : β → β} {v : β}
    (h : lookupFirst l k = some v) (hf : f v = v) : updateFirst l k f = l := by
  induction l with
  | nil => simp [lookupFirst] at h
  | cons kv rest ih =>
      obtain ⟨k', v'⟩ := kv
      by_cases hk : k' = k
      · subst hk
        simp [lookupFirst] at h
        subst h
        simp [updateFirst, hf]
      · simp [lookupFirst, hk] at h
        simp [updateFirst, hk, ih h]

theorem mergeRepoData_self {rd : RepoData} (hn : NodupKeys rd)
    (hl : ∀ pl ∈ rd, NodupKeys pl.2) : mergeRepoData rd rd = rd := by
  unfold mergeRepoData
  refine foldl_fixed _ _ _ (fun pl hpl => ?_)
  have hlk : lookupFirst rd pl.1 = some pl.2 :=
    lookupFirst_of_nodup_mem hn (by simpa using hpl)
  simp only [hlk, Option.isSome_some, if_pos]
  exact updateFirst_self hlk (assignList_self (hl pl hpl))

/-! ## Flattening lemmas -/

theorem numberFrom_map_number (i : Nat) (l : List (String × String)) :
    (numberFrom i l).map (·.number) = List.range' i l.length := by
  induction l generalizing i with
  | nil => rfl
  | cons rp rest ih => simp [numberFrom, List.range'_succ, ih]

theorem numberFrom_mem_pairs {i : Nat} {l : List (String × String)} {h : NumberedHit}
    (hm : h ∈ numberFrom i l) : (h.repo, h.path) ∈ l := by
  induction l generalizing i with
  | nil => simp [numberFrom] at hm
  | cons rp rest ih =>
      rcases List.mem_cons.mp hm with he | he
      · subst he
        simp
      · exact List.mem_cons.mpr (Or.inr (ih he))

theorem numberFrom_pairwise_lt (i : Nat) (l : List (String × String)) :
    (numberFrom i l).Pairwise (fun a b => a.number < b.number) := by
  induction l generalizing i with
  | nil => exact List.Pairwise.nil
  | cons rp rest ih =>
      refine List.Pairwise.cons (fun b hb => ?_) (ih (i + 1))
      have hbn : b.number ∈ (numberFrom (i + 1) rest).map (·.number) :=
        List.mem_map.mpr ⟨b, hb, rfl⟩
      rw [numberFrom_map_number] at hbn
      have := List.mem_range'.mp hbn
      show i < b.number
      omega

theorem numberFrom_ne_nil {i : Nat} {l : List (String × String)} (h : l ≠ []) :
    numberFrom i l ≠ [] := by
  cases l with
  | nil => exact absurd rfl h
  | cons rp rest => simp [numberFrom]

theorem flattenHits_mem_pairs {s : IHits} {h : NumberedHit}
    (hm : h ∈ flattenHits s) : (h.repo, h.path) ∈ repoPathPairs s :=
  numberFrom_mem_pairs hm

theorem repoPathPairs_of_skeleton {s1 s2 : IHits}
    (h : hitsSkeleton s1 = hitsSkeleton s2) : repoPathPairs s1 = repoPathPairs s2 := by
  have key : ∀ s : IHits, repoPathPairs s =
      ((hitsSkeleton s).map (fun rp => rp.2.map (fun p => (rp.1, p)))).flatten := by
    intro s
    unfold repoPathPairs hitsSkeleton
    rw [List.map_map]
    have hfe : (fun (rp : String × RepoData) => rp.2.map (fun pl => (rp.1, pl.1))) =
        ((fun (rp : String × List String) => rp.2.map (fun p => (rp.1, p))) ∘
          (fun rp => (rp.1, rp.2.map (·.1)))) := by
      funext rp
      simp [List.map_map]
    rw [hfe]
  rw [key s1, key s2, h]

/-! ## Cache pipeline lemmas -/

theorem cleanupCache_noop {S : CacheState} (h : sumJsonSizes S ≤ MAX_CACHE_SIZE) :
    cleanupCache S = S := by
  unfold cleanupCache
  rw [if_neg (by omega)]

theorem filter_jsInsert_single {S0 : CacheState} {k : String} {f : CacheFile}
    (p : String × CacheFile → Bool)
    (hno : ∀ nf ∈ S0, p nf = false) (hf : p (k, f) = true) :
    (jsInsert S0 k f).filter p = [(k, f)] := by
  induction S0 with
  | nil => simp [jsInsert, List.filter, hf]
  | cons nf rest ih =>
      obtain ⟨n', f'⟩ := nf
      by_cases hk : n' = k
      · subst hk
        have hrest : rest.filter p = [] :=
          List.filter_eq_nil_iff.mpr (fun a ha => by
            simp [hno a (List.mem_cons_of_mem _ ha)])
        simp [jsInsert, List.filter, hf, hrest]
      · have hnf : p (n', f') = false := hno (n', f') (by simp)
        have ih' := ih (fun a ha => hno a (List.mem_cons_of_mem _ ha))
        simp [jsInsert, hk, List.filter, hnf, ih']

theorem getCachedData_fresh {S : CacheState} {k : String} {f : CacheFile} {e : CacheEntry}
    {now : Int} (hl : lookupFirst S (k ++ ".json") = some f) (he : f.entry = some e)
    (httl : now - e.timestamp ≤ CACHE_TTL) : getCachedData S now k = (some e, S) := by
  simp only [getCachedData, hl, he]
  rw [if_neg (Int.not_lt.mpr httl)]

theorem getQueryResults_after_cacheData
    (S0 : CacheState) (tw tr : Int) (k q : String) (d : SearchData)
    (hk1 : jsEndsWith (k ++ ".json") ".json" = true)
    (hk2 : jsSplitDotHead (k ++ ".json") = k)
    (hq : ∀ nf ∈ S0, fileMatchesQuery q nf = false)
    (hsize : sumJsonSizes (jsInsert S0 (k ++ ".json") (writtenFile tw d (some q))) ≤ MAX_CACHE_SIZE)
    (httl : tr - tw ≤ CACHE_TTL) :
    getQueryResults (cacheData S0 tw k d (some q)) tr q =
      (some d.hits, cacheData S0 tw k d (some q), []) := by
  have hS : cacheData S0 tw k d (some q) = jsInsert S0 (k ++ ".json") (writtenFile tw d (some q)) := by
    unfold cacheData
    exact cleanupCache_noop hsize
  have hmatch : fileMatchesQuery q (k ++ ".json", writtenFile tw d (some q)) = true := by
    simp [fileMatchesQuery, writtenFile, writtenEntry, hk1]
  have hfind : findCacheFiles (jsInsert S0 (k ++ ".json") (writtenFile tw d (some q))) q =
      [k ++ ".json"] := by
    unfold findCacheFiles
    rw [filter_jsInsert_single _ hq hmatch]
    rfl
  rw [hS]
  unfold getQueryResults
  rw [hfind]
  simp only [hk2]
  rw [getCachedData_fresh (lookupFirst_jsInsert S0 (k ++ ".json") (writtenFile tw d (some q)))
    rfl httl]
  rfl

/-! ## Number-filter lemmas -/

theorem numberFrom_filter_none (ns : List Nat) :
    ∀ (l : List (String × String)) (i : Nat), (∀ n ∈ ns, n < i) →
      (numberFrom i l).filter (fun h => ns.contains h.number) = [] := by
  intro l
  induction l with
  | nil => intro i _; rfl
  | cons rp rest ih =>
      intro i hb
      have hc : ns.contains i = false := by
        rcases hcontra : ns.contains i with _ | _
        · rfl
        · exact absurd (hb i (List.elem_iff.mp hcontra)) (by omega)
      simp only [numberFrom, List.filter, hc]
      exact ih (i + 1) (fun n hn => Nat.lt_succ_of_lt (hb n hn))

theorem flatten_filter_12 (l : List (String × String)) :
    (numberFrom 1 l).filter (fun h => ([1, 2] : List Nat).contains h.number) =
      (numberFrom 1 l).take 2 := by
  match l with
  | [] => rfl
  | [(r1, p1)] => rfl
  | (r1, p1) :: (r2, p2) :: rest =>
      show (⟨1, r1, p1⟩ : NumberedHit) :: (⟨2, r2, p2⟩ : NumberedHit) ::
          (numberFrom 3 rest).filter (fun h => ([1, 2] : List Nat).contains h.number) =
        [⟨1, r1, p1⟩, ⟨2, r2, p2⟩]
      rw [numberFrom_filter_none [1, 2] rest 3 (by decide)]

/-- The map-back step keeps the hit's number, repo and path in every
    branch. -/
theorem mapBackHit_fields (res : List GitHubFileContent) (h : NumberedHit) :
    (mapBackHit res h).number = h.number ∧ (mapBackHit res h).repo = h.repo ∧
      (mapBackHit res h).path = h.path := by
  unfold mapBackHit
  split
  · exact ⟨rfl, rfl, rfl⟩
  · split
    · exact ⟨rfl, rfl, rfl⟩
    · exact ⟨rfl, rfl, rfl⟩

/-! ## Claim C1 -/

set_option maxRecDepth 1000000 in
/-- Claim C1 (code bug): the shared `generateCacheKey` digest is a
    function of the query alone — the page field (and any flag) never
    reaches the digest input — but the per-page `getCacheKey` of
    grep-app-client.ts feeds the page number and the search flags into
    the digest, so one query yields different digests for different
    pages and for different flag sets.  This is exactly the key-shape
    mismatch the repository's own notes document as the root-cause bug;
    the spec makes query-only derivation a hard invariant. -/
theorem cache_key_page_flag_dependence :
    generateCacheKey ⟨"tower_governor", some 1⟩ = generateCacheKey ⟨"tower_governor", some 2⟩ ∧
    generateCacheKey ⟨"tower_governor", none⟩ = generateCacheKey ⟨"tower_governor", some 7⟩ ∧
    getCacheKey 1 ⟨"tower_governor", none, none, none, none, none, none⟩ ≠
      getCacheKey 2 ⟨"tower_governor", none, none, none, none, none, none⟩ ∧
    getCacheKey 1 ⟨"tower_governor", some true, none, none, none, none, none⟩ ≠
      getCacheKey 1 ⟨"tower_governor", none, none, none, none, none, none⟩ :=
  ⟨rfl, rfl, by decide, by decide⟩

/-! ## Claim C3 -/

/-- Claim C3 (code bug): with two live cache entries for one query where
    the older one comes first in the directory listing, `getQueryResults`
    returns the older entry's hits: the selection follows incidental
    listing order (`findCacheFiles` does not sort; the head is taken),
    not the stored timestamp or the mtime, contradicting the code's own
    "sorted by most recent" comment. -/
theorem getQueryResults_listing_order_not_recency :
    findCacheFiles exTwoEntries "tower_governor" = ["aaaa.json", "bbbb.json"] ∧
    entryOld.timestamp < entryNew.timestamp ∧
    (getQueryResults exTwoEntries 2500 "tower_governor").1 = some entryOld.data.hits ∧
    entryOld.data.hits ≠ entryNew.data.hits := by decide

/-! ## Claim C5 -/

theorem lookupFirst_filter_ne (S : CacheState) (name : String) :
    lookupFirst (S.filter (fun nf => nf.1 ≠ name)) name = none := by
  induction S with
  | nil => rfl
  | cons nf rest ih =>
      by_cases h : nf.1 = name
      · simpa [List.filter_cons, h] using ih
      · simpa [List.filter_cons, h, lookupFirst] using ih

/-- Claim C5: `getCachedData` is total (never throws) and returns
    `null` when the backing record is missing or unparseable; when the
    entry's age exceeds the 24-hour TTL it returns `null` and deletes
    the backing file (which is gone from the resulting state); a fresh
    entry is returned unchanged. -/
theorem getCachedData_miss_corrupt_expiry (S : CacheState) (now : Int) (k : String) :
    (lookupFirst S (k ++ ".json") = none → getCachedData S now k = (none, S)) ∧
    (∀ f, lookupFirst S (k ++ ".json") = some f → f.entry = none →
      getCachedData S now k = (none, S)) ∧
    (∀ f e, lookupFirst S (k ++ ".json") = some f → f.entry = some e →
      now - e.timestamp > CACHE_TTL →
      getCachedData S now k = (none, S.filter (fun nf => nf.1 ≠ k ++ ".json")) ∧
      lookupFirst (getCachedData S now k).2 (k ++ ".json") = none) ∧
    (∀ f e, lookupFirst S (k ++ ".json") = some f → f.entry = some e →
      now - e.timestamp ≤ CACHE_TTL → getCachedData S now k = (some e, S)) := by
  refine ⟨?_, ?_, ?_, ?_⟩
  · intro h
    simp only [getCachedData, h]
  · intro f h he
    simp only [getCachedData, h, he]
  · intro f e h he httl
    have h1 : getCachedData S now k = (none, S.filter (fun nf => nf.1 ≠ k ++ ".json")) := by
      simp only [getCachedData, h, he]
      rw [if_pos httl]
    exact ⟨h1, by rw [h1]; exact lookupFirst_filter_ne S (k ++ ".json")⟩
  · intro f e h he httl
    exact getCachedData_fresh h he httl

/-- Witness for C5: the expiry branch on a concrete state — the old
    entry of `exTwoEntries`, read 90 000 000 ms later, is not returned
    and its backing file is deleted. -/
theorem getCachedData_miss_corrupt_expiry_witness :
    getCachedData exTwoEntries 90000000 "aaaa" =
      (none, exTwoEntries.filter (fun nf => nf.1 ≠ "aaaa" ++ ".json")) ∧
    lookupFirst (getCachedData exTwoEntries 90000000 "aaaa").2 ("aaaa" ++ ".json") = none :=
  (getCachedData_miss_corrupt_expiry exTwoEntries 90000000 "aaaa").2.2.1
    ⟨some entryOld, 1000, 50⟩ entryOld (by decide) (by decide) (by decide)

/-! ## Claim C7 -/

/-- Claim C7 counterexample: two stores holding the same repository →
    path → line mapping (as nested mappings, which carry no key order)
    flatten to different NumberedHit sequences when their enumeration
    orders differ, so the claim is false for order-insensitive mapping
    equality. -/
theorem flattenHits_unordered_mapping_cx :
    hitsSameMappingSpec storeAB storeBA = true ∧
    flattenHits storeAB ≠ flattenHits storeBA := by decide

/-- Claim C7 (amended): flattening reads only the repository/path
    skeleton in enumeration order — two stores with the same
    repositories and paths in the same enumeration order (whatever their
    line-level content) yield identical NumberedHit sequences, numbered
    consecutively from 1. -/
theorem flattenHits_skeleton_deterministic (s1 s2 : IHits)
    (h : hitsSkeleton s1 = hitsSkeleton s2) :
    flattenHits s1 = flattenHits s2 ∧
    (flattenHits s1).map (·.number) = List.range' 1 (repoPathPairs s1).length := by
  constructor
  · unfold flattenHits
    rw [repoPathPairs_of_skeleton h]
  · exact numberFrom_map_number 1 _

/-- Witness for C7: `storeAB` and `storeABlines` share the skeleton but
    differ in line content; their flattenings agree and are numbered
    1, 2. -/
theorem flattenHits_skeleton_deterministic_witness :
    hitsSkeleton storeAB = hitsSkeleton storeABlines ∧
    (flattenHits storeAB = flattenHits storeABlines ∧
      (flattenHits storeAB).map (·.number) = List.range' 1 (repoPathPairs storeAB).length) :=
  ⟨by decide, flattenHits_skeleton_deterministic storeAB storeABlines (by decide)⟩

/-! ## Claim C8 -/

/-- Claim C8: merging an identical copy of a well-formed aggregate into
    itself leaves the three-level repository → path → line content
    unchanged (idempotence of `mergeHits`). -/
theorem mergeHits_self_idempotent (s : IHits) (hwf : HitsWf s) : mergeHits s s = s := by
  obtain ⟨hTop, hRepo⟩ := hwf
  obtain ⟨l⟩ := s
  show (⟨l.foldl _ l⟩ : IHits) = ⟨l⟩
  refine congrArg IHits.mk ?_
  refine foldl_fixed _ _ _ (fun rp hrp => ?_)
  have hlk : lookupFirst l rp.1 = some rp.2 :=
    lookupFirst_of_nodup_mem hTop (by simpa using hrp)
  show updateFirst (if (lookupFirst l rp.1).isSome then l else l ++ [(rp.1, [])]) rp.1
      (fun rd => mergeRepoData rd rp.2) = l
  rw [hlk]
  show updateFirst l rp.1 (fun rd => mergeRepoData rd rp.2) = l
  exact updateFirst_self hlk (mergeRepoData_self (hRepo rp hrp).1 (hRepo rp hrp).2)

/-- Witness for C8: the three-file aggregate is well-formed and merging
    it into itself returns it unchanged. -/
theorem mergeHits_self_idempotent_witness :
    HitsWf exHits3 ∧ mergeHits exHits3 exHits3 = exHits3 :=
  ⟨by unfold HitsWf NodupKeys; decide,
   mergeHits_self_idempotent exHits3 (by unfold HitsWf NodupKeys; decide)⟩

/-! ## Claim C10 -/

/-- Claim C10: the map-back step of `batchRetrieveFiles` matches a
    fetched file to a hit by repository short name and path only — two
    hits whose repositories share a short name under different owners
    and whose paths are equal receive the content (and error) of the
    same first-matching fetched file. -/
theorem mapBackHit_ignores_owner (res : List GitHubFileContent) (h1 h2 : NumberedHit)
    (i1 i2 : RepoInfo)
    (hp1 : parseGitHubRepo h1.repo = some i1) (hp2 : parseGitHubRepo h2.repo = some i2)
    (ho : i1.owner ≠ i2.owner) (hs : i1.repo = i2.repo) (hp : h1.path = h2.path) :
    (mapBackHit res h1).content = (mapBackHit res h2).content ∧
      (mapBackHit res h1).error = (mapBackHit res h2).error := by
  simp only [mapBackHit, hp1, hp2, hs, hp]
  cases List.find? (fun r => r.repo == i2.repo && r.path == h2.path) res with
  | none => exact ⟨rfl, rfl⟩
  | some r =>
      by_cases he : strTruthy r.error = true
      · simp [he]
      · simp [he]

/-- Witness for C10: hits 1 (`alice/proj`) and 3 (`bob/proj`), same
    path, both receive the content fetched for alice's file. -/
theorem mapBackHit_ignores_owner_witness :
    (mapBackHit (githubStub [⟨"alice", "proj", "src/a.ts"⟩, ⟨"bob", "proj", "src/a.ts"⟩])
        ⟨1, "alice/proj", "src/a.ts"⟩).content =
      (mapBackHit (githubStub [⟨"alice", "proj", "src/a.ts"⟩, ⟨"bob", "proj", "src/a.ts"⟩])
        ⟨3, "bob/proj", "src/a.ts"⟩).content ∧
    (mapBackHit (githubStub [⟨"alice", "proj", "src/a.ts"⟩, ⟨"bob", "proj", "src/a.ts"⟩])
        ⟨1, "alice/proj", "src/a.ts"⟩).error =
      (mapBackHit (githubStub [⟨"alice", "proj", "src/a.ts"⟩, ⟨"bob", "proj", "src/a.ts"⟩])
        ⟨3, "bob/proj", "src/a.ts"⟩).error :=
  mapBackHit_ignores_owner _ ⟨1, "alice/proj", "src/a.ts"⟩ ⟨3, "bob/proj", "src/a.ts"⟩
    ⟨"alice", "proj"⟩ ⟨"bob", "proj"⟩ (by decide) (by decide) (by decide) (by decide) (by decide)

/-! ## Claims C2 and C4: batch retrieval over a freshly cached search -/

theorem isEmpty_false_of_ne {α : Type} {l : List α} (h : l ≠ []) : l.isEmpty = false := by
  cases l with
  | nil => exact absurd rfl h
  | cons a rest => rfl

/-- Workhorse: on a cache hit with no warnings, a non-empty requested
    filter of at most one page (page 1, size 10) and parseable
    repositories, `batchRetrieveFiles` succeeds and maps the filtered
    hits through the fetch/map-back pipeline. -/
theorem batchRetrieveFiles_success_eq
    (github : List GitHubFileRequest → List GitHubFileContent)
    (S : CacheState) (now : Int) (q : String) (ns : List Nat) (H : IHits) (S' : CacheState)
    (hgq : getQueryResults S now q = (some H, S', []))
    (hns : 0 < ns.length)
    (hfil : requestedHits H ns ≠ [])
    (hlen : (requestedHits H ns).length ≤ 10)
    (hparse : ∀ h ∈ requestedHits H ns, (parseGitHubRepo h.repo).isSome = true) :
    batchRetrieveFiles github S now ⟨q, some ns, 1, 10⟩ =
      (⟨true, (requestedHits H ns).map (mapBackHit (github (requestsOf (requestedHits H ns)))),
        none, some 1, some 10, some (((requestedHits H ns).length + 10 - 1) / 10),
        some (requestedHits H ns).length⟩, S', []) := by
  have hpage : ((requestedHits H ns).drop ((1 - 1) * 10)).take 10 = requestedHits H ns := by
    rw [Nat.sub_self, Nat.zero_mul, List.drop_zero]
    exact List.take_of_length_le hlen
  have hreq_ne : (requestsOf (requestedHits H ns)).isEmpty = false := by
    obtain ⟨hd, tl, hcons⟩ := List.exists_cons_of_ne_nil hfil
    have hsome := hparse hd (by rw [hcons]; exact List.mem_cons_self hd tl)
    obtain ⟨ri, hri⟩ := Option.isSome_iff_exists.mp hsome
    rw [hcons]
    simp [requestsOf, List.filterMap_cons, hri]
  have hwarns : (requestedHits H ns).filterMap (fun h =>
      if (parseGitHubRepo h.repo).isNone then
        some ("Invalid GitHub repo format: " ++ h.repo)
      else none) = [] := by
    refine List.filterMap_eq_nil_iff.mpr (fun h hh => ?_)
    obtain ⟨ri, hri⟩ := Option.isSome_iff_exists.mp (hparse h hh)
    simp [hri]
  unfold batchRetrieveFiles
  simp only [hgq, requestedHits, requestsOf] at *
  simp only [if_pos hns, isEmpty_false_of_ne hfil, Bool.false_eq_true, if_false, hpage,
    hreq_ne, hwarns]
  rfl

set_option maxRecDepth 1000000 in
/-- Claim C2 counterexample: after a successful search for
    `tower_governor` cached a single-file aggregate, requesting result
    numbers `[1, 2]` returns one entry but logs no warning for the
    missing number 2 — refuting the claim's "or fewer, with a logged
    warning". -/
theorem batch_two_requested_silent_cx :
    (batchRetrieveFiles githubStub exState1 2000
        ⟨"tower_governor", some [1, 2], 1, 10⟩).1.files.length = 1 ∧
    (batchRetrieveFiles githubStub exState1 2000
        ⟨"tower_governor", some [1, 2], 1, 10⟩).2.2 = [] := by decide

/-- Claim C2 (amended): for a query whose search completed and cached
    the aggregate (with the entry fresh, discoverable and within the
    size cap), a batch retrieval for `[1, 2]` succeeds and returns
    exactly `min 2 n` entries for an aggregate of `n` numbered results
    (2 when `n ≥ 2`, fewer — silently, with no warning — when `n < 2`),
    each carrying a repository and path drawn from the cached
    aggregate. -/
theorem batch_retrieve_two_after_search
    (github : List GitHubFileRequest → List GitHubFileContent)
    (S0 : CacheState) (tw tr : Int) (k q : String) (d : SearchData)
    (hk1 : jsEndsWith (k ++ ".json") ".json" = true)
    (hk2 : jsSplitDotHead (k ++ ".json") = k)
    (hq : ∀ nf ∈ S0, fileMatchesQuery q nf = false)
    (hsize : sumJsonSizes (jsInsert S0 (k ++ ".json") (writtenFile tw d (some q))) ≤
      MAX_CACHE_SIZE)
    (httl : tr - tw ≤ CACHE_TTL)
    (hn : flattenHits d.hits ≠ [])
    (hrepo : ∀ h ∈ flattenHits d.hits, (parseGitHubRepo h.repo).isSome = true) :
    (batchRetrieveFiles github (cacheData S0 tw k d (some q)) tr
        ⟨q, some [1, 2], 1, 10⟩).1.success = true ∧
    (batchRetrieveFiles github (cacheData S0 tw k d (some q)) tr
        ⟨q, some [1, 2], 1, 10⟩).1.files.length = min 2 (flattenHits d.hits).length ∧
    (∀ fe ∈ (batchRetrieveFiles github (cacheData S0 tw k d (some q)) tr
        ⟨q, some [1, 2], 1, 10⟩).1.files, (fe.repo, fe.path) ∈ repoPathPairs d.hits) ∧
    (batchRetrieveFiles github (cacheData S0 tw k d (some q)) tr
        ⟨q, some [1, 2], 1, 10⟩).2.2 = [] := by
  have hgq := getQueryResults_after_cacheData S0 tw tr k q d hk1 hk2 hq hsize httl
  have h12 : requestedHits d.hits [1, 2] = (flattenHits d.hits).take 2 := by
    unfold requestedHits
    exact flatten_filter_12 (repoPathPairs d.hits)
  have hfil : requestedHits d.hits [1, 2] ≠ [] := by
    rw [h12]
    obtain ⟨hd, tl, hcons⟩ := List.exists_cons_of_ne_nil hn
    rw [hcons]
    simp
  have hlen : (requestedHits d.hits [1, 2]).length ≤ 10 := by
    rw [h12, List.length_take]
    omega
  have hparse : ∀ h ∈ requestedHits d.hits [1, 2], (parseGitHubRepo h.repo).isSome = true :=
    fun h hh => hrepo h (List.mem_of_mem_filter hh)
  have heq := batchRetrieveFiles_success_eq github (cacheData S0 tw k d (some q)) tr q
    [1, 2] d.hits (cacheData S0 tw k d (some q)) hgq (by decide) hfil hlen hparse
  refine ⟨by rw [heq], ?_, ?_, by rw [heq]⟩
  · rw [heq]
    show ((requestedHits d.hits [1, 2]).map _).length = _
    rw [List.length_map, h12, List.length_take]
  · intro fe hfe
    rw [heq] at hfe
    obtain ⟨h, hh, hmap⟩ := List.mem_map.mp hfe
    obtain ⟨e1, e2, e3⟩ := mapBackHit_fields (github (requestsOf (requestedHits d.hits [1, 2]))) h
    rw [← hmap, e2, e3]
    exact flattenHits_mem_pairs (List.mem_of_mem_filter hh)

set_option maxRecDepth 1000000 in
/-- Witness for C2: the three-file aggregate cached for
    `tower_governor`; retrieval of `[1, 2]` succeeds with 2 entries
    drawn from the aggregate and no warnings. -/
theorem batch_retrieve_two_after_search_witness :
    (batchRetrieveFiles githubStub exState3 2000
        ⟨"tower_governor", some [1, 2], 1, 10⟩).1.success = true ∧
    (batchRetrieveFiles githubStub exState3 2000
        ⟨"tower_governor", some [1, 2], 1, 10⟩).1.files.length = min 2 (flattenHits exAgg3.hits).length ∧
    (∀ fe ∈ (batchRetrieveFiles githubStub exState3 2000
        ⟨"tower_governor", some [1, 2], 1, 10⟩).1.files,
      (fe.repo, fe.path) ∈ repoPathPairs exAgg3.hits) ∧
    (batchRetrieveFiles githubStub exState3 2000
        ⟨"tower_governor", some [1, 2], 1, 10⟩).2.2 = [] :=
  batch_retrieve_two_after_search githubStub [] 1000 2000 "beefbeef" "tower_governor" exAgg3
    (by decide) (by decide) (by simp) (by decide) (by decide) (by decide) (by decide)

set_option maxRecDepth 1000000 in
/-- Claim C4 counterexample: requesting `[9, 2, 1]` over a cached
    three-result aggregate returns the two resolvable entries as
    numbers `[1, 2]` — the flattened order, not the caller's `[2, 1]` —
    and logs no warning for the dropped number 9. -/
theorem batch_caller_order_not_preserved_cx :
    (batchRetrieveFiles githubStub exState3 2000
        ⟨"tower_governor", some [9, 2, 1], 1, 10⟩).1.files.map (fun fe => fe.number) = [1, 2] ∧
    ([1, 2] : List Nat) ≠ [2, 1] ∧
    (batchRetrieveFiles githubStub exState3 2000
        ⟨"tower_governor", some [9, 2, 1], 1, 10⟩).2.2 = [] := by decide

/-- Claim C4 (amended): for a cached query and a non-empty requested
    list of which at least one number resolves (and at most pageSize
    resolve, parseable repositories), locate returns exactly the
    entries whose numbers were requested, in ascending flattened-number
    order (not the caller's order), and silently — without logging a
    warning — drops each requested number with no matching entry. -/
theorem batch_retrieve_filters_in_flattened_order
    (github : List GitHubFileRequest → List GitHubFileContent)
    (S0 : CacheState) (tw tr : Int) (k q : String) (d : SearchData) (ns : List Nat)
    (hk1 : jsEndsWith (k ++ ".json") ".json" = true)
    (hk2 : jsSplitDotHead (k ++ ".json") = k)
    (hq : ∀ nf ∈ S0, fileMatchesQuery q nf = false)
    (hsize : sumJsonSizes (jsInsert S0 (k ++ ".json") (writtenFile tw d (some q))) ≤
      MAX_CACHE_SIZE)
    (httl : tr - tw ≤ CACHE_TTL)
    (hns : 0 < ns.length)
    (hfil : requestedHits d.hits ns ≠ [])
    (hlen : (requestedHits d.hits ns).length ≤ 10)
    (hrepo : ∀ h ∈ flattenHits d.hits, (parseGitHubRepo h.repo).isSome = true) :
    (batchRetrieveFiles github (cacheData S0 tw k d (some q)) tr
        ⟨q, some ns, 1, 10⟩).1.success = true ∧
    (batchRetrieveFiles github (cacheData S0 tw k d (some q)) tr
        ⟨q, some ns, 1, 10⟩).1.files.map (fun fe => (fe.number, fe.repo, fe.path)) =
      (requestedHits d.hits ns).map (fun h => (h.number, h.repo, h.path)) ∧
    (∀ fe ∈ (batchRetrieveFiles github (cacheData S0 tw k d (some q)) tr
        ⟨q, some ns, 1, 10⟩).1.files, fe.number ∈ ns) ∧
    ((batchRetrieveFiles github (cacheData S0 tw k d (some q)) tr
        ⟨q, some ns, 1, 10⟩).1.files.map (fun fe => fe.number)).Pairwise (· < ·) ∧
    (batchRetrieveFiles github (cacheData S0 tw k d (some q)) tr
        ⟨q, some ns, 1, 10⟩).2.2 = [] := by
  have hgq := getQueryResults_after_cacheData S0 tw tr k q d hk1 hk2 hq hsize httl
  have hparse : ∀ h ∈ requestedHits d.hits ns, (parseGitHubRepo h.repo).isSome = true :=
    fun h hh => hrepo h (List.mem_of_mem_filter hh)
  have heq := batchRetrieveFiles_success_eq github (cacheData S0 tw k d (some q)) tr q
    ns d.hits (cacheData S0 tw k d (some q)) hgq hns hfil hlen hparse
  have hfields : ∀ h ∈ requestedHits d.hits ns,
      ((mapBackHit (github (requestsOf (requestedHits d.hits ns)))) h).number = h.number ∧
      ((mapBackHit (github (requestsOf (requestedHits d.hits ns)))) h).repo = h.repo ∧
      ((mapBackHit (github (requestsOf (requestedHits d.hits ns)))) h).path = h.path :=
    fun h _ => mapBackHit_fields _ h
  refine ⟨by rw [heq], ?_, ?_, ?_, by rw [heq]⟩
  · rw [heq]
    show ((requestedHits d.hits ns).map _).map _ = _
    rw [List.map_map]
    refine List.map_congr_left (fun h hh => ?_)
    obtain ⟨e1, e2, e3⟩ := hfields h hh
    show ((mapBackHit _ h).number, (mapBackHit _ h).repo, (mapBackHit _ h).path) = _
    rw [e1, e2, e3]
  · intro fe hfe
    rw [heq] at hfe
    obtain ⟨h, hh, hmap⟩ := List.mem_map.mp hfe
    obtain ⟨e1, _, _⟩ := hfields h hh
    rw [← hmap, e1]
    have := (List.mem_filter.mp hh).2
    exact List.elem_iff.mp this
  · rw [heq]
    show (((requestedHits d.hits ns).map _).map (fun (fe : FileResult) => fe.number)).Pairwise (· < ·)
    rw [List.map_map]
    have hmapeq : ((requestedHits d.hits ns).map
        ((fun (fe : FileResult) => fe.number) ∘
          mapBackHit (github (requestsOf (requestedHits d.hits ns))))) =
        (requestedHits d.hits ns).map (fun h => h.number) := by
      refine List.map_congr_left (fun h hh => ?_)
      exact (hfields h hh).1
    rw [hmapeq]
    rw [List.pairwise_map]
    exact (numberFrom_pairwise_lt 1 (repoPathPairs d.hits)).sublist
      (List.filter_sublist (flattenHits d.hits))

set_option maxRecDepth 1000000 in
/-- Witness for C4: requesting `[9, 2, 1]` over the cached three-file
    aggregate returns entries 1 and 2 in flattened order with no
    warnings. -/
theorem batch_retrieve_filters_in_flattened_order_witness :
    (batchRetrieveFiles githubStub exState3 2000
        ⟨"tower_governor", some [9, 2, 1], 1, 10⟩).1.success = true ∧
    (batchRetrieveFiles githubStub exState3 2000
        ⟨"tower_governor", some [9, 2, 1], 1, 10⟩).1.files.map (fun fe => (fe.number, fe.repo, fe.path)) =
      (requestedHits exAgg3.hits [9, 2, 1]).map (fun h => (h.number, h.repo, h.path)) ∧
    (∀ fe ∈ (batchRetrieveFiles githubStub exState3 2000
        ⟨"tower_governor", some [9, 2, 1], 1, 10⟩).1.files, fe.number ∈ [9, 2, 1]) ∧
    ((batchRetrieveFiles githubStub exState3 2000
        ⟨"tower_governor", some [9, 2, 1], 1, 10⟩).1.files.map
          (fun (fe : FileResult) => fe.number)).Pairwise (· < ·) ∧
    (batchRetrieveFiles githubStub exState3 2000
        ⟨"tower_governor", some [9, 2, 1], 1, 10⟩).2.2 = [] :=
  batch_retrieve_filters_in_flattened_order githubStub [] 1000 2000 "beefbeef"
    "tower_governor" exAgg3 [9, 2, 1]
    (by decide) (by decide) (by simp) (by decide) (by decide) (by decide) (by decide) (by decide)
    (by decide)

/-! ## Claim C9: cleanup deletes oldest-first until at or under the cap -/

theorem sumSizes_cons (f : String × CacheFile) (l : CacheState) :
    sumSizes (f :: l) = f.2.size + sumSizes l := by
  simp [sumSizes]

theorem insertByMtime_perm (f : String × CacheFile) (l : CacheState) :
    List.Perm (insertByMtime f l) (f :: l) := by
  induction l with
  | nil => exact List.Perm.refl _
  | cons g rest ih =>
      unfold insertByMtime
      by_cases h : g.2.mtime < f.2.mtime
      · rw [if_pos h]
        exact (ih.cons g).trans (List.Perm.swap f g rest)
      · rw [if_neg h]

theorem sortByMtime_perm (l : CacheState) : List.Perm (sortByMtime l) l := by
  induction l with
  | nil => exact List.Perm.refl _
  | cons f rest ih => exact (insertByMtime_perm f (sortByMtime rest)).trans (ih.cons f)

theorem insertByMtime_sorted {l : CacheState} (f : String × CacheFile)
    (hs : l.Pairwise (fun a b => a.2.mtime ≤ b.2.mtime)) :
    (insertByMtime f l).Pairwise (fun a b => a.2.mtime ≤ b.2.mtime) := by
  induction l with
  | nil => simp [insertByMtime]
  | cons g rest ih =>
      unfold insertByMtime
      rw [List.pairwise_cons] at hs
      by_cases h : g.2.mtime < f.2.mtime
      · rw [if_pos h]
        rw [List.pairwise_cons]
        refine ⟨fun b hb => ?_, ih hs.2⟩
        rcases List.mem_cons.mp ((insertByMtime_perm f rest).mem_iff.mp hb) with hb' | hb'
        · exact hb' ▸ Int.le_of_lt h
        · exact hs.1 b hb'
      · rw [if_neg h]
        rw [List.pairwise_cons]
        refine ⟨fun b hb => ?_, List.pairwise_cons.mpr hs⟩
        rcases List.mem_cons.mp hb with hb' | hb'
        · exact hb' ▸ Int.not_lt.mp h
        · exact le_trans (Int.not_lt.mp h) (hs.1 b hb')

theorem sortByMtime_sorted (l : CacheState) :
    (sortByMtime l).Pairwise (fun a b => a.2.mtime ≤ b.2.mtime) := by
  induction l with
  | nil => exact List.Pairwise.nil
  | cons f rest ih => exact insertByMtime_sorted f ih

theorem evict_spec (l : CacheState) : ∀ (total : Nat),
    ∃ k, k ≤ l.length ∧ evict total l = ((l.take k).map (·.1)) ∧
      (∀ j < k, total - sumSizes (l.take j) > MAX_CACHE_SIZE) ∧
      (total - sumSizes (l.take k) ≤ MAX_CACHE_SIZE ∨ k = l.length) := by
  induction l with
  | nil =>
      intro total
      exact ⟨0, Nat.le_refl 0, rfl, fun j hj => absurd hj (Nat.not_lt_zero j), Or.inr rfl⟩
  | cons f rest ih =>
      intro total
      by_cases h : total > MAX_CACHE_SIZE
      · obtain ⟨c, hle, he, hj, hend⟩ := ih (total - f.2.size)
        refine ⟨c + 1, Nat.succ_le_succ hle, ?_, ?_, ?_⟩
        · unfold evict
          rw [if_pos h, he]
          rfl
        · intro j hj'
          cases j with
          | zero => simpa [sumSizes] using h
          | succ j' =>
              have hstep := hj j' (Nat.lt_of_succ_lt_succ hj')
              rw [List.take_succ_cons, sumSizes_cons, ← Nat.sub_sub]
              exact hstep
        · rcases hend with hend | hend
          · left
            rw [List.take_succ_cons, sumSizes_cons, ← Nat.sub_sub]
            exact hend
          · right
            rw [hend]
            rfl
      · refine ⟨0, Nat.zero_le _, ?_, fun j hj => absurd hj (Nat.not_lt_zero j), Or.inl ?_⟩
        · unfold evict
          rw [if_neg h]
          rfl
        · simpa [sumSizes] using Nat.le_of_not_lt h

theorem filter_swap {p q' : String × CacheFile → Bool} (l : CacheState) :
    (l.filter p).filter q' = (l.filter q').filter p := by
  induction l with
  | nil => rfl
  | cons a rest ih =>
      rcases hp : p a with _ | _ <;> rcases hq : q' a with _ | _ <;>
        simp [List.filter_cons, hp, hq, ih]

theorem jsonFiles_filter (S : CacheState) (p : String × CacheFile → Bool) :
    jsonFiles (S.filter p) = (jsonFiles S).filter p := by
  unfold jsonFiles
  exact filter_swap S

theorem filter_not_contains_append (l1 l2 : CacheState)
    (hnd : ((l1 ++ l2).map (·.1)).Nodup) :
    (l1 ++ l2).filter (fun nf => !((l1.map (·.1)).contains nf.1)) = l2 := by
  rw [List.map_append, List.nodup_append] at hnd
  rw [List.filter_append]
  have h1 : l1.filter (fun nf => !((l1.map (·.1)).contains nf.1)) = [] := by
    refine List.filter_eq_nil_iff.mpr (fun a ha => ?_)
    intro hcontra
    have hc : (l1.map (·.1)).contains a.1 = true :=
      List.elem_iff.mpr (List.mem_map.mpr ⟨a, ha, rfl⟩)
    rw [hc] at hcontra
    simp at hcontra
  have h2 : l2.filter (fun nf => !((l1.map (·.1)).contains nf.1)) = l2 := by
    refine List.filter_eq_self.mpr (fun a ha => ?_)
    have hnot : a.1 ∉ l1.map (·.1) :=
      fun hcontra => hnd.2.2 hcontra (List.mem_map.mpr ⟨a, ha, rfl⟩)
    simp only [Bool.not_eq_true']
    rcases hb : (l1.map (·.1)).contains a.1 with _ | _
    · exact hb
    · exact absurd (List.elem_iff.mp hb) hnot
  rw [h1, h2, List.nil_append]

/-- Claim C9: `cleanupCache` deletes nothing when the total persisted
    `.json` byte size is at or under the 5 GiB cap; when the total
    exceeds the cap it deletes a minimal mtime-ascending prefix of the
    sorted file list — every deleted file is at least as old as every
    survivor, each deletion happens only while the running total still
    exceeds the cap — and afterwards the total is at or under the cap or
    no `.json` files remain. -/
theorem cleanupCache_oldest_first (S : CacheState) (hnd : NodupKeys S) :
    (sumJsonSizes S ≤ MAX_CACHE_SIZE → cleanupCache S = S) ∧
    (sumJsonSizes S > MAX_CACHE_SIZE →
      ∃ k, List.Perm (jsonFiles (cleanupCache S)) ((sortByMtime (jsonFiles S)).drop k) ∧
        (∀ f ∈ (sortByMtime (jsonFiles S)).take k,
          ∀ g ∈ (sortByMtime (jsonFiles S)).drop k, f.2.mtime ≤ g.2.mtime) ∧
        (∀ j < k, sumJsonSizes S - sumSizes ((sortByMtime (jsonFiles S)).take j) >
          MAX_CACHE_SIZE) ∧
        (sumJsonSizes (cleanupCache S) ≤ MAX_CACHE_SIZE ∨ jsonFiles (cleanupCache S) = [])) := by
  constructor
  · exact cleanupCache_noop
  · intro hover
    obtain ⟨k, hkle, hev, hj, hend⟩ := evict_spec (sortByMtime (jsonFiles S)) (sumJsonSizes S)
    have hclean : cleanupCache S = S.filter (fun nf =>
        !((((sortByMtime (jsonFiles S)).take k).map (·.1)).contains nf.1)) := by
      unfold cleanupCache
      rw [if_pos hover, hev]
    have hTperm : List.Perm (sortByMtime (jsonFiles S)) (jsonFiles S) := sortByMtime_perm _
    have hnd0 : (S.map (·.1)).Nodup := hnd
    have hTnodup : NodupKeys (sortByMtime (jsonFiles S)) := by
      unfold NodupKeys
      refine (hTperm.map (·.1)).nodup_iff.mpr ?_
      exact ((List.filter_sublist S).map (·.1)).nodup hnd0
    have hjson : List.Perm (jsonFiles (cleanupCache S)) ((sortByMtime (jsonFiles S)).drop k) := by
      rw [hclean, jsonFiles_filter]
      refine (List.Perm.filter _ hTperm).symm.trans ?_
      have hnd1 : (((sortByMtime (jsonFiles S)).take k ++
          (sortByMtime (jsonFiles S)).drop k).map (·.1)).Nodup := by
        rw [List.take_append_drop]
        exact hTnodup
      have hkey := filter_not_contains_append ((sortByMtime (jsonFiles S)).take k)
        ((sortByMtime (jsonFiles S)).drop k) hnd1
      rw [List.take_append_drop] at hkey
      rw [hkey]
    refine ⟨k, hjson, ?_, hj, ?_⟩
    · intro f hf g hg
      have hsorted := sortByMtime_sorted (jsonFiles S)
      rw [← List.take_append_drop k (sortByMtime (jsonFiles S)), List.pairwise_append] at hsorted
      exact hsorted.2.2 f hf g hg
    · rcases hend with hend | hend
      · left
        have hsum : sumJsonSizes (cleanupCache S) =
            sumSizes ((sortByMtime (jsonFiles S)).drop k) := by
          unfold sumJsonSizes sumSizes
          exact (hjson.map (fun nf => nf.2.size)).sum_eq
        have htot : sumSizes ((sortByMtime (jsonFiles S)).take k) +
            sumSizes ((sortByMtime (jsonFiles S)).drop k) = sumJsonSizes S := by
          unfold sumJsonSizes
          have h1 : sumSizes (sortByMtime (jsonFiles S)) = sumSizes (jsonFiles S) := by
            unfold sumSizes
            exact (hTperm.map (fun nf => nf.2.size)).sum_eq
          rw [← h1]
          unfold sumSizes
          rw [← List.sum_append, ← List.map_append, List.take_append_drop]
        rw [hsum]
        omega
      · right
        rw [hend, List.drop_length] at hjson
        exact List.Perm.eq_nil hjson

/-- Witness for C9: two 3 GiB files exceed the cap; cleanup acts and
    afterwards the remaining `.json` size is at or under the cap (or
    nothing remains). -/
theorem cleanupCache_oldest_first_witness :
    sumJsonSizes exOverCap > MAX_CACHE_SIZE ∧
    (∃ k, List.Perm (jsonFiles (cleanupCache exOverCap)) ((sortByMtime (jsonFiles exOverCap)).drop k) ∧
      (∀ f ∈ (sortByMtime (jsonFiles exOverCap)).take k,
        ∀ g ∈ (sortByMtime (jsonFiles exOverCap)).drop k, f.2.mtime ≤ g.2.mtime) ∧
      (∀ j < k, sumJsonSizes exOverCap - sumSizes ((sortByMtime (jsonFiles exOverCap)).take j) >
        MAX_CACHE_SIZE) ∧
      (sumJsonSizes (cleanupCache exOverCap) ≤ MAX_CACHE_SIZE ∨
        jsonFiles (cleanupCache exOverCap) = [])) :=
  ⟨by decide, (cleanupCache_oldest_first exOverCap (by unfold NodupKeys; decide)).2 (by decide)⟩

/-! ## Claim C6: written entries are discoverable by their exact query -/

theorem mem_jsInsert_self {β : Type} (l : List (String × β)) (k : String) (v : β) :
    (k, v) ∈ jsInsert l k v := by
  induction l with
  | nil => exact List.mem_singleton.mpr rfl
  | cons kv rest ih =>
      obtain ⟨k', v'⟩ := kv
      by_cases h : k' = k
      · subst h
        simp [jsInsert]
      · simp only [jsInsert, if_neg h]
        exact List.mem_cons_of_mem _ ih

theorem mem_names_jsInsert {β : Type} {l : List (String × β)} {k a : String} {v : β}
    (h : a ∈ (jsInsert l k v).map (·.1)) : a ∈ l.map (·.1) ∨ a = k := by
  induction l with
  | nil => simpa [jsInsert] using h
  | cons kv rest ih =>
      obtain ⟨k', v'⟩ := kv
      by_cases hk : k' = k
      · simp only [jsInsert, if_pos hk, List.map_cons, List.mem_cons] at h
        simp only [List.map_cons, List.mem_cons]
        exact Or.inl h
      · simp only [jsInsert, if_neg hk, List.map_cons, List.mem_cons] at h
        rcases h with h | h
        · exact Or.inl (by simp [h])
        · rcases ih h with h' | h'
          · exact Or.inl (by simp [h'])
          · exact Or.inr h'

theorem nodupKeys_jsInsert {β : Type} {l : List (String × β)} (hn : NodupKeys l)
    (k : String) (v : β) : NodupKeys (jsInsert l k v) := by
  induction l with
  | nil => simp [jsInsert, NodupKeys]
  | cons kv rest ih =>
      obtain ⟨k', v'⟩ := kv
      unfold NodupKeys at hn ⊢
      simp only [List.map_cons, List.nodup_cons] at hn
      by_cases hk : k' = k
      · simp only [jsInsert, if_pos hk, List.map_cons, List.nodup_cons]
        exact hn
      · simp only [jsInsert, if_neg hk, List.map_cons, List.nodup_cons]
        refine ⟨fun hcontra => ?_, ih hn.2⟩
        rcases mem_names_jsInsert hcontra with h' | h'
        · exact hn.1 h'
        · exact hk h'

set_option maxRecDepth 1000000 in
/-- Claim C6 counterexample: the record written by `cacheData` can be
    deleted by the post-write cleanup pass before any lookup — here the
    pre-existing cache holds a 6 GiB file whose mtime postdates the
    write, so the fresh record sorts oldest and is evicted, and
    `findCacheFiles` for its query finds nothing even though the record
    matched the query. -/
theorem cacheData_eviction_cx :
    fileMatchesQuery "q6" ("cafecafe" ++ ".json", writtenFile 1000 ⟨none, exHits1, 1⟩ (some "q6")) =
      true ∧
    findCacheFiles (cacheData exBigFuture 1000 "cafecafe" ⟨none, exHits1, 1⟩ (some "q6")) "q6" =
      [] := by decide

/-- Claim C6 (amended): provided the total persisted size after the
    write stays within the 5 GiB cap (so the post-write cleanup deletes
    nothing), the record written by `cacheData(k, d, q)` is discoverable
    via `findCacheFiles(q)` and not via `findCacheFiles(q')` for any
    `q' ≠ q`; the match is exact, case-sensitive string equality on the
    stored query field with no normalization. -/
theorem cacheData_find_by_query (S0 : CacheState) (now : Int) (k q q' : String) (d : SearchData)
    (hk1 : jsEndsWith (k ++ ".json") ".json" = true)
    (hqq : q ≠ q')
    (hnd : NodupKeys S0)
    (hsize : sumJsonSizes (jsInsert S0 (k ++ ".json") (writtenFile now d (some q))) ≤
      MAX_CACHE_SIZE) :
    (k ++ ".json") ∈ findCacheFiles (cacheData S0 now k d (some q)) q ∧
    (k ++ ".json") ∉ findCacheFiles (cacheData S0 now k d (some q)) q' := by
  have hS : cacheData S0 now k d (some q) =
      jsInsert S0 (k ++ ".json") (writtenFile now d (some q)) := by
    unfold cacheData
    exact cleanupCache_noop hsize
  have hmatch : fileMatchesQuery q (k ++ ".json", writtenFile now d (some q)) = true := by
    simp [fileMatchesQuery, writtenFile, writtenEntry, hk1]
  rw [hS]
  constructor
  · exact List.mem_map.mpr ⟨(k ++ ".json", writtenFile now d (some q)),
      List.mem_filter.mpr ⟨mem_jsInsert_self S0 (k ++ ".json") (writtenFile now d (some q)),
        hmatch⟩, rfl⟩
  · intro hmem
    obtain ⟨nf, hin, hname⟩ := List.mem_map.mp hmem
    have hfil := List.mem_filter.mp hin
    have hnd' : NodupKeys (jsInsert S0 (k ++ ".json") (writtenFile now d (some q))) :=
      nodupKeys_jsInsert hnd (k ++ ".json") (writtenFile now d (some q))
    have h1 : lookupFirst (jsInsert S0 (k ++ ".json") (writtenFile now d (some q))) nf.1 =
        some nf.2 := lookupFirst_of_nodup_mem hnd' (by simpa using hfil.1)
    rw [hname] at h1
    rw [lookupFirst_jsInsert] at h1
    have hfq : fileMatchesQuery q' nf = true := hfil.2
    have hnf : nf = (k ++ ".json", writtenFile now d (some q)) := by
      obtain ⟨n1, f1⟩ := nf
      simp only at hname h1
      rw [hname]
      injection h1 with h2
      rw [h2]
    rw [hnf] at hfq
    simp only [fileMatchesQuery, writtenFile, writtenEntry] at hfq
    rw [Bool.and_eq_true] at hfq
    have := hfq.2
    rw [beq_iff_eq] at this
    exact hqq (Option.some.injEq .. ▸ this)

set_option maxRecDepth 1000000 in
/-- Witness for C6: writing the single-file aggregate for
    `tower_governor` into an empty cache makes it discoverable by that
    exact query and not by `other`. -/
theorem cacheData_find_by_query_witness :
    ("cafecafe" ++ ".json") ∈
      findCacheFiles (cacheData [] 1000 "cafecafe" ⟨none, exHits1, 1⟩ (some "tower_governor"))
        "tower_governor" ∧
    ("cafecafe" ++ ".json") ∉
      findCacheFiles (cacheData [] 1000 "cafecafe" ⟨none, exHits1, 1⟩ (some "tower_governor"))
        "other" :=
  cacheData_find_by_query [] 1000 "cafecafe" "tower_governor" "other" ⟨none, exHits1, 1⟩
    (by decide) (by decide) (by unfold NodupKeys; decide) (by decide)

end GrepApp
